import Mathlib

/-!
Verification development for the TypedDict un/structure function generators
in src/cattrs/gen/typeddicts.py (functions make_dict_unstructure_fn and
make_dict_structure_fn).

The embedding is shallow: the generators synthesize Python source text and
compile it; here each generator is modelled as a function producing a plan
(a list of statements mirroring the emitted lines), and a small interpreter
gives the call-time semantics of the compiled function.  External
collaborators that are out of scope per the specification (the converter's
dispatch registry, find_structure_handler from gen/_shared.py, the
deep_copy_with substitution utility from _generics.py, and the
generate_mapping generic binder) are modelled as explicit parameters
bundled in a Converter record; the mapping computed by generate_mapping is
passed in as an argument.  Python objects compared by identity (handlers,
exceptions, classes) are modelled by tagged values with numeric ids.
-/

set_option autoImplicit false

namespace Cattrs

/-- Keys of Python dicts in this development are strings. -/
abbrev Key := String

/-- Opaque field values flowing through the generated functions. -/
inductive Val where
  | vint : Int → Val
  | vstr : String → Val
  | vobj : Nat → Val
deriving DecidableEq, Repr

/-- A Python dict, as an association list in insertion order.  Lookup finds
the first occurrence; assignment updates in place or appends, matching
Python dict semantics for duplicate-free lists. -/
abbrev Dict := List (Key × Val)

/-- Lookup d[k], none when the key is absent. -/
def dlookup : Dict → Key → Option Val
  | [], _ => none
  | (k, v) :: rest, key => if k = key then some v else dlookup rest key

/-- Membership test, Python's "k in d". -/
def dmem (d : Dict) (k : Key) : Bool := (dlookup d k).isSome

/-- Assignment d[k] = v: update the first binding of k in place, else append. -/
def dset : Dict → Key → Val → Dict
  | [], k, v => [(k, v)]
  | (k', v') :: rest, k, v =>
    if k' = k then (k', v) :: rest else (k', v') :: dset rest k v

/-- Shallow copy d.copy(): same entries; the new-object identity is tracked
separately by the call semantics (callU result flag). -/
def dcopy (d : Dict) : Dict := d

/-- Python dict equality (==): the same keys mapped to the same values,
as a decidable check over the keys occurring on either side. -/
def dictEq (d1 d2 : Dict) : Bool :=
  (d1.map Prod.fst ++ d2.map Prod.fst).all fun k => dlookup d1 k == dlookup d2 k

/-- Generic association-list lookup for string-keyed maps (the type-variable
mapping and the override kwargs). -/
def alookup {α : Type} : List (String × α) → String → Option α
  | [], _ => none
  | (k, v) :: rest, key => if k = key then some v else alookup rest key

/-- Python type expressions, as far as the generators inspect them:
a TypeVar, a plain concrete type, a generic instantiation (bare when its
argument list is empty), or an Annotated wrapper. -/
inductive Ty where
  | tvar : String → Ty
  | con : Nat → Ty
  | gen : Nat → List Ty → Ty
  | ann : Ty → Nat → Ty

/-- The _compat.is_generic test, structurally on the modelled types. -/
def isGenericTy : Ty → Bool
  | .gen _ _ => true
  | _ => false

/-- The _compat.is_bare test: a generic with no arguments. -/
def isBare : Ty → Bool
  | .gen _ [] => true
  | _ => false

/-- The _compat.is_annotated test. -/
def isAnn : Ty → Bool
  | .ann _ _ => true
  | _ => false

/-- Type-variable substitution mapping (name to concrete type), the result of
the external generate_mapping binder. -/
abbrev TVMap := List (String × Ty)

/-- Unstructure handlers, compared by Python object identity in the source:
the converter's designated identity handler (converter._unstructure_identity),
the general-purpose fallback entry point (converter.unstructure), or any
other handler object tagged by id. -/
inductive UHandler where
  | identity
  | fallback
  | custom : Nat → UHandler
deriving DecidableEq, Repr

/-- Structure handlers: the designated _structure_call handler (invoked with
one argument, the type itself being called), a falsy handler (the
"if handler:" check fails and a plain copy assignment is emitted), or any
other handler object tagged by id. -/
inductive SHandler where
  | structureCall
  | falsy
  | custom : Nat → SHandler
deriving DecidableEq, Repr

/-- Kind of a raised Python exception: a KeyError on a given key, or any
other exception tagged by id. -/
inductive ErrKind where
  | keyError : Key → ErrKind
  | other : Nat → ErrKind
deriving DecidableEq, Repr

/-- A Python exception value with its __notes__ list (absent notes modelled
as the empty list, matching the getattr default in the source). -/
structure PyErr where
  kind : ErrKind
  notes : List String
deriving DecidableEq, Repr

/-- The source's e.__notes__ = getattr(e, '__notes__', []) + [note]. -/
def addNote (e : PyErr) (n : String) : PyErr := { e with notes := e.notes ++ [n] }

/-- Errors the unstructure dispatch registry can raise: a RecursionError
(caught by the generator) or any other exception (propagates). -/
inductive DispErr where
  | recursion
  | other : Nat → DispErr
deriving DecidableEq, Repr

/-- Generation-time errors of the two makers. -/
inductive GenErr where
  | recursionError
  | dispatchErr : Nat → GenErr
  | missingGenericArg : String → GenErr
  | handlerNotFound : String → GenErr
deriving DecidableEq, Repr

/-- The message of the StructureHandlerNotFoundError raised for an unbound
generic parameter (source line 220-223). -/
def genErrMsg : GenErr → String
  | .missingGenericArg p =>
    "Missing type for generic argument " ++ p ++ ", specify it when structuring."
  | _ => ""

/-- The external collaborators consumed through narrow interfaces (spec
section 6): the unstructure dispatch (converter._unstructure_func.dispatch,
which may raise), the semantics of non-identity unstructure handlers and of
the general fallback converter.unstructure, the deep_copy_with substitution
utility, find_structure_handler from gen/_shared.py (which may raise a
handler-not-found error), the structure dispatch
(converter._structure_func.dispatch), and the semantics of structure
handlers (two-argument custom handlers and the one-argument
_structure_call, either of which may raise at call time). -/
structure Converter where
  udispatch : Ty → Except DispErr UHandler
  ucustom : Nat → Val → Val
  ufallback : Val → Val
  deepCopy : TVMap → Ty → Ty
  findHandler : String → Ty → Except GenErr SHandler
  sdispatch : Ty → SHandler
  scustom : Nat → Val → Ty → Except PyErr Val
  scallType : Ty → Val → Except PyErr Val

/-- Call-time semantics of a resolved unstructure handler.  The identity
handler returns its argument unchanged. -/
def uApply (conv : Converter) : UHandler → Val → Val
  | .identity, v => v
  | .fallback, v => conv.ufallback v
  | .custom i, v => conv.ucustom i v

/-- Call-time semantics of a resolved structure handler: custom handlers are
called as handler(value, type), _structure_call as type(value), and a falsy
handler means the emitted line is the plain copy res[an] = o[kn]. -/
def sApply (conv : Converter) (h : SHandler) (t : Ty) (v : Val) : Except PyErr Val :=
  match h with
  | .structureCall => conv.scallType t v
  | .falsy => .ok v
  | .custom i => conv.scustom i v t

/-- An attribute as produced by adapted_fields: its name and declared type
(the other Attribute slots are NOTHING/None constants in the source). -/
structure FieldA where
  name : String
  type : Ty

/-- A TypedDict class as the generators see it, already stripped to its
origin: object identity id, __name__, __qualname__, the adapted_fields
list in declaration order, __required_keys__, and __parameters__. -/
structure RecordCl where
  id : Nat
  name : String
  qualname : String
  fields : List FieldA
  reqKeys : List String
  params : List String

/-- The AttributeOverride record from gen/__init__.py, with its neutral
defaults. -/
structure AttributeOverride where
  «omit» : Bool := false
  rename : Option String := none
  unstruct_hook : Option UHandler := none
  struct_hook : Option SHandler := none
deriving DecidableEq, Repr

/-- The neutral override (no effect), the default for absent kwargs. -/
def neutral : AttributeOverride := {}

/-- The override kwargs: a map from field name to override. -/
abbrev Overrides := List (String × AttributeOverride)

/-- kwargs.get(attr_name, neutral). -/
def kwGet (kw : Overrides) (n : String) : AttributeOverride :=
  (alookup kw n).getD neutral

/-- Dispatch with the source's try/except RecursionError fallback to
converter.unstructure (lines 92-97 and 130-135); other exceptions
propagate. -/
def dispatchCaught (conv : Converter) (t : Ty) : Except GenErr UHandler :=
  match conv.udispatch t with
  | .ok h => .ok h
  | .error .recursion => .ok .fallback
  | .error (.other i) => .error (.dispatchErr i)

/-- Per-field unstructure type resolution and dispatch (lines 81-97, repeated
at 121-135): a TypeVar is substituted when bound, else the general fallback
is used without dispatching; a non-bare non-annotated generic is
deep-copied with the mapping before dispatch. -/
def resolveFieldU (conv : Converter) (mapping : TVMap) (t0 : Ty) : Except GenErr UHandler :=
  match t0 with
  | .tvar n =>
    match alookup mapping n with
    | some t => dispatchCaught conv t
    | none => .ok .fallback
  | t =>
    let t1 := if isGenericTy t && !isBare t && !isAnn t then conv.deepCopy mapping t else t
    dispatchCaught conv t1

/-- The short-circuit scan (lines 76-103): true when no attribute has a
non-neutral override and every attribute resolves to the identity handler;
the loop breaks (false) at the first override or non-identity handler, and
an uncaught dispatch exception propagates. -/
def allIdentity (conv : Converter) (mapping : TVMap) (kw : Overrides) :
    List FieldA → Except GenErr Bool
  | [] => .ok true
  | a :: rest =>
    if kwGet kw a.name ≠ neutral then .ok false
    else
      match resolveFieldU conv mapping a.type with
      | .error e => .error e
      | .ok h =>
        if h = .identity then allIdentity conv mapping kw rest else .ok false

/-- Variables of the generated unstructure function body: its argument and
the result dict initialized from the shallow copy. -/
inductive UVar where
  | inst
  | res
deriving DecidableEq, Repr

/-- One emitted unstructure line (lines 149-153): an assignment
tgt[kn] = handler(inst[an]), guarded by "if kn in inst:" when the
attribute is not required.  The source only ever targets res. -/
inductive UStmt where
  | assign (guarded : Bool) (tgt : UVar) (kn : String) (h : UHandler) (an : String)
deriving DecidableEq, Repr

/-- Target variable of an emitted unstructure statement. -/
def UStmt.tgt : UStmt → UVar
  | .assign _ t _ _ _ => t

/-- The emission loop of make_dict_unstructure_fn (lines 105-153): omitted
fields are skipped entirely, the key name honors a rename, the handler is
the forced unstruct_hook when given and is otherwise resolved, and fields
whose handler is the identity are skipped (no line emitted). -/
def uPlanFields (conv : Converter) (mapping : TVMap) (kw : Overrides)
    (req : List String) : List FieldA → Except GenErr (List UStmt)
  | [] => .ok []
  | a :: rest =>
    let o := kwGet kw a.name
    if o.«omit» then uPlanFields conv mapping kw req rest
    else
      let kn := o.rename.getD a.name
      let attrReq := req.contains a.name
      let hRes :=
        match o.unstruct_hook with
        | some h => Except.ok h
        | none => resolveFieldU conv mapping a.type
      match hRes with
      | .error e => .error e
      | .ok h =>
        if h = .identity then uPlanFields conv mapping kw req rest
        else
          match uPlanFields conv mapping kw req rest with
          | .error e => .error e
          | .ok tail => .ok (UStmt.assign (!attrReq) .res kn h a.name :: tail)

/-- The value returned by make_dict_unstructure_fn: either the registry's
identity handler itself (the short-circuit, line 103) or a synthesized
function with the emitted statements compiled into its body. -/
inductive UnstrFn where
  | identityFn
  | synth : List UStmt → UnstrFn
deriving DecidableEq, Repr

/-- make_dict_unstructure_fn (lines 25-181).  The working set holds object
ids of classes currently being generated (already_generating.working_set):
a class already present raises RecursionError before being added, otherwise
it is added for the duration of the body and removed in the finally block.
The mapping stands for the generate_mapping result (external generic
binder); cl is already the stripped origin class. -/
def make_dict_unstructure_fn (conv : Converter) (cl : RecordCl) (mapping : TVMap)
    (kw : Overrides) (ws : List Nat) : Except GenErr UnstrFn × List Nat :=
  if ws.contains cl.id then (.error .recursionError, ws)
  else
    let ws1 := cl.id :: ws
    let body : Except GenErr UnstrFn :=
      match allIdentity conv mapping kw cl.fields with
      | .error e => .error e
      | .ok true => .ok .identityFn
      | .ok false =>
        match uPlanFields conv mapping kw cl.reqKeys cl.fields with
        | .error e => .error e
        | .ok stmts => .ok (.synth stmts)
    (body, ws1.erase cl.id)

/-- State of one invocation of a synthesized unstructure function: the input
argument and the res dict. -/
structure UState where
  inst : Dict
  res : Dict
deriving DecidableEq, Repr

/-- Read a body variable. -/
def readVar (s : UState) : UVar → Dict
  | .inst => s.inst
  | .res => s.res

/-- Write a body variable. -/
def writeVar (s : UState) : UVar → Dict → UState
  | .inst, d => { s with inst := d }
  | .res, d => { s with res := d }

/-- Run one emitted unstructure line: the guard tests membership of kn in
the input argument; the right-hand side reads inst[an], raising KeyError
when absent. -/
def runUStmt (conv : Converter) (s : UState) : UStmt → Except PyErr UState
  | .assign guarded tgt kn h an =>
    if guarded && !dmem s.inst kn then .ok s
    else
      match dlookup s.inst an with
      | none => .error ⟨.keyError an, []⟩
      | some v => .ok (writeVar s tgt (dset (readVar s tgt) kn (uApply conv h v)))

/-- Run the emitted lines in order, failing fast on an uncaught exception. -/
def runUStmts (conv : Converter) : List UStmt → UState → Except PyErr UState
  | [], s => .ok s
  | st :: rest, s =>
    match runUStmt conv s st with
    | .error e => .error e
    | .ok s' => runUStmts conv rest s'

/-- Call a function returned by make_dict_unstructure_fn on an input dict.
The Bool of the result records whether the returned mapping is the very
same object as the input: the identity handler returns its argument, while
a synthesized body starts from res = instance.copy() and returns res. -/
def callU (conv : Converter) : UnstrFn → Dict → Except PyErr (Dict × Bool)
  | .identityFn, d => .ok (d, true)
  | .synth stmts, d =>
    match runUStmts conv stmts ⟨d, dcopy d⟩ with
    | .error e => .error e
    | .ok s => .ok (s.res, false)

/-- Per-field structure type resolution (lines 254-258): a TypeVar is looked
up in the mapping (kept as-is when unbound), a non-bare non-annotated
generic is deep-copied with the mapping. -/
def resolveTyS (conv : Converter) (mapping : TVMap) (t0 : Ty) : Ty :=
  match t0 with
  | .tvar n =>
    match alookup mapping n with
    | some t => t
    | none => .tvar n
  | t => if isGenericTy t && !isBare t && !isAnn t then conv.deepCopy mapping t else t

/-- One field of the detailed-validation body (lines 274-298): optionally
guarded by "if kn in o:", then a try block assigning
res[an] = handler(o[kn], type) (or type(o[kn]) for _structure_call, or the
plain o[kn] for a falsy handler), whose except block appends the baked
note to the exception and collects it. -/
inductive SStmt where
  | fieldStmt (guarded : Bool) (an kn : String) (h : SHandler) (t : Ty) (note : String)

/-- One line of the fast-mode body: a required-field line
res[kn] = handler(o[kn], type) (lines 340-357, reading and writing the
mapped key kn), or an optional-field line guarded by "if kn in o:" writing
res[an] (lines 384-398). -/
inductive FStmt where
  | freq (kn : String) (h : SHandler) (t : Ty)
  | fopt (an kn : String) (h : SHandler) (t : Ty)

/-- The detailed-validation emission loop (lines 248-298): omitted fields
are skipped, the handler is the forced struct_hook when given and is
otherwise the find_structure_handler result (whose handler-not-found error
propagates), and the diagnostic note "Structuring class (qualname) @
attribute (name)" is baked into the emitted except block. -/
def sPlanDetailed (conv : Converter) (mapping : TVMap) (kw : Overrides)
    (cl : RecordCl) : List FieldA → Except GenErr (List SStmt)
  | [] => .ok []
  | a :: rest =>
    let o := kwGet kw a.name
    if o.«omit» then sPlanDetailed conv mapping kw cl rest
    else
      let attrReq := cl.reqKeys.contains a.name
      let t := resolveTyS conv mapping a.type
      let hRes :=
        match o.struct_hook with
        | some h => Except.ok h
        | none => conv.findHandler a.name t
      match hRes with
      | .error e => .error e
      | .ok h =>
        let kn := o.rename.getD a.name
        let note := "Structuring class " ++ cl.qualname ++ " @ attribute " ++ a.name
        match sPlanDetailed conv mapping kw cl rest with
        | .error e => .error e
        | .ok tail => .ok (SStmt.fieldStmt (!attrReq) a.name kn h t note :: tail)

/-- The fast-mode first loop (lines 313-357): omitted fields are skipped,
non-required fields are deferred, required fields dispatch their resolved
type and emit res[kn] = handler(o[kn], type).  Returns the emitted lines
and the deferred non-required fields in declaration order. -/
def sPlanFastReq (conv : Converter) (mapping : TVMap) (kw : Overrides)
    (req : List String) : List FieldA → List FStmt × List FieldA
  | [] => ([], [])
  | a :: rest =>
    let (tail, nonReq) := sPlanFastReq conv mapping kw req rest
    let o := kwGet kw a.name
    if o.«omit» then (tail, nonReq)
    else if !req.contains a.name then (tail, a :: nonReq)
    else
      let t := resolveTyS conv mapping a.type
      let h := conv.sdispatch t
      let kn := o.rename.getD a.name
      (FStmt.freq kn h t :: tail, nonReq)

/-- The fast-mode second loop (lines 360-398) over the deferred non-required
fields: each emits a post line guarded by "if kn in o:" writing res[an]. -/
def sPlanFastOpt (conv : Converter) (mapping : TVMap) (kw : Overrides) :
    List FieldA → List FStmt
  | [] => []
  | a :: rest =>
    let o := kwGet kw a.name
    let t := resolveTyS conv mapping a.type
    let h := conv.sdispatch t
    let kn := o.rename.getD a.name
    FStmt.fopt a.name kn h t :: sPlanFastOpt conv mapping kw rest

/-- The compiled body of a function returned by make_dict_structure_fn:
the detailed-validation shape with its aggregate-error message and class
id, or the fast shape with its required lines and optional post lines. -/
inductive SPlan where
  | detailedPlan (stmts : List SStmt) (msg : String) (clId : Nat)
  | fastPlan (reqStmts : List FStmt) (optStmts : List FStmt)

/-- The generic-parameter check (lines 215-229): every name in
cl.__parameters__ must be bound in the mapping, else a
StructureHandlerNotFoundError naming the parameter is raised.  This runs
before any per-field processing and is unaffected by overrides. -/
def checkParams (mapping : TVMap) : List String → Except GenErr Unit
  | [] => .ok ()
  | p :: rest =>
    match alookup mapping p with
    | some _ => checkParams mapping rest
    | none => .error (.missingGenericArg p)

/-- make_dict_structure_fn (lines 184-425).  The mapping stands for the
generate_mapping result and cl is already the stripped origin class (the
generic binding at lines 193-208 is the external collaborator).  The
aggregate-error message "While structuring " + cl.__name__ is baked into
the detailed plan. -/
def make_dict_structure_fn (conv : Converter) (cl : RecordCl) (mapping : TVMap)
    (detailedValidation : Bool) (kw : Overrides) : Except GenErr SPlan :=
  match checkParams mapping cl.params with
  | .error e => .error e
  | .ok _ =>
    if detailedValidation then
      match sPlanDetailed conv mapping kw cl cl.fields with
      | .error e => .error e
      | .ok stmts => .ok (.detailedPlan stmts ("While structuring " ++ cl.name) cl.id)
    else
      let (reqStmts, nonReq) := sPlanFastReq conv mapping kw cl.reqKeys cl.fields
      .ok (.fastPlan reqStmts (sPlanFastOpt conv mapping kw nonReq))

/-- Evaluate the right-hand side of one structure line: o[kn] (KeyError when
absent) fed to the resolved handler. -/
def evalRhs (conv : Converter) (o : Dict) (kn : String) (h : SHandler) (t : Ty) :
    Except PyErr Val :=
  match dlookup o kn with
  | none => .error ⟨.keyError kn, []⟩
  | some v => sApply conv h t v

/-- Run the detailed-validation body: each field's try block either assigns
res[an] on success or appends the noted exception to the error list;
nothing aborts early. -/
def runDetailed (conv : Converter) (o : Dict) :
    List SStmt → Dict → List PyErr → Dict × List PyErr
  | [], res, errs => (res, errs)
  | .fieldStmt guarded an kn h t note :: rest, res, errs =>
    if guarded && !dmem o kn then runDetailed conv o rest res errs
    else
      match evalRhs conv o kn h t with
      | .ok v => runDetailed conv o rest (dset res an v) errs
      | .error e => runDetailed conv o rest res (errs ++ [addNote e note])

/-- Run fast-mode lines: exceptions propagate immediately; a required line
reads and writes kn, an optional line is guarded on kn and writes an. -/
def runFast (conv : Converter) (o : Dict) : List FStmt → Dict → Except PyErr Dict
  | [], res => .ok res
  | .freq kn h t :: rest, res =>
    match evalRhs conv o kn h t with
    | .ok v => runFast conv o rest (dset res kn v)
    | .error e => .error e
  | .fopt an kn h t :: rest, res =>
    if dmem o kn then
      match evalRhs conv o kn h t with
      | .ok v => runFast conv o rest (dset res an v)
      | .error e => .error e
    else runFast conv o rest res

/-- Errors raised by a call to a generated structure function: an uncaught
exception (fast mode), or the ClassValidationError aggregate raised at the
end of the detailed-validation body. -/
inductive SCallErr where
  | exc : PyErr → SCallErr
  | classValidation (msg : String) (errs : List PyErr) (clId : Nat)

/-- Call a function returned by make_dict_structure_fn.  The generated
function's signature is (o, _, *, internals); its second positional
argument is bound to the unused placeholder and never read, so the call
semantics ignores the second parameter entirely.  Both modes start from
res = o.copy(). -/
def callS (conv : Converter) (plan : SPlan) (o : Dict) (_second : Val) :
    Except SCallErr Dict :=
  match plan with
  | .detailedPlan stmts msg clId =>
    match runDetailed conv o stmts (dcopy o) [] with
    | (res, []) => .ok res
    | (_, e :: es) => .error (.classValidation msg (e :: es) clId)
  | .fastPlan reqStmts optStmts =>
    match runFast conv o reqStmts (dcopy o) with
    | .error e => .error (.exc e)
    | .ok res =>
      match runFast conv o optStmts res with
      | .error e => .error (.exc e)
      | .ok res2 => .ok res2

/-! Basic lemmas about the dict model. -/

theorem dlookup_dset_self (d : Dict) (k : Key) (v : Val) :
    dlookup (dset d k v) k = some v := by
  induction d with
  | nil => simp [dset, dlookup]
  | cons kv rest ih =>
    obtain ⟨k', v'⟩ := kv
    by_cases h : k' = k
    · subst h; simp [dset, dlookup]
    · simp [dset, dlookup, h, ih]

theorem dlookup_dset_ne (d : Dict) {k k' : Key} (v : Val) (h : k' ≠ k) :
    dlookup (dset d k v) k' = dlookup d k' := by
  have hne : ¬(k = k') := fun e => h e.symm
  induction d with
  | nil => simp [dset, dlookup, hne]
  | cons kv rest ih =>
    obtain ⟨k0, v0⟩ := kv
    by_cases h0 : k0 = k
    · subst h0
      simp [dset, dlookup, hne]
    · simp [dset, dlookup, h0, ih]

theorem dictEq_of_pointwise {d1 d2 : Dict} (h : ∀ k, dlookup d1 k = dlookup d2 k) :
    dictEq d1 d2 = true := by
  unfold dictEq
  rw [List.all_eq_true]
  intro k _
  simp [h k]

@[simp] theorem kwGet_nil (n : String) : kwGet [] n = neutral := rfl

@[simp] theorem neutral_omit : neutral.«omit» = false := rfl

@[simp] theorem neutral_rename : neutral.rename = none := rfl

@[simp] theorem neutral_uhook : neutral.unstruct_hook = none := rfl

@[simp] theorem neutral_shook : neutral.struct_hook = none := rfl

/-! Lemmas about the unstructure generator. -/

theorem resolveFieldU_ne_rec (conv : Converter) (mapping : TVMap) (t : Ty) :
    resolveFieldU conv mapping t ≠ .error .recursionError := by
  unfold resolveFieldU dispatchCaught
  cases t <;> simp only []
  case tvar n =>
    cases alookup mapping n <;> simp
    case some t' => cases conv.udispatch t' with
      | ok h => simp
      | error e => cases e <;> simp
  all_goals
    (first
      | (cases h : conv.udispatch _ with
          | ok h' => simp [h]
          | error e => cases e <;> simp [h]))

theorem allIdentity_spec (conv : Converter) (mapping : TVMap) (kw : Overrides)
    (fs : List FieldA)
    (hres : ∀ a ∈ fs, ∃ h, resolveFieldU conv mapping a.type = .ok h) :
    (∃ b, allIdentity conv mapping kw fs = .ok b) ∧
    (allIdentity conv mapping kw fs = .ok true ↔
      ∀ a ∈ fs, kwGet kw a.name = neutral ∧
        resolveFieldU conv mapping a.type = .ok .identity) := by
  induction fs with
  | nil => exact ⟨⟨true, rfl⟩, by simp [allIdentity]⟩
  | cons a rest ih =>
    obtain ⟨h, hh⟩ := hres a (by simp)
    obtain ⟨⟨b, hb⟩, hiff⟩ := ih (fun b hb => hres b (by simp [hb]))
    by_cases hov : kwGet kw a.name = neutral
    · by_cases hid : h = .identity
      · subst hid
        refine ⟨⟨b, ?_⟩, ?_⟩
        · simp [allIdentity, hov, hh, hb]
        · constructor
          · intro htrue b hbmem
            rcases List.mem_cons.mp hbmem with rfl | hbm
            · exact ⟨hov, hh⟩
            · have : allIdentity conv mapping kw rest = .ok true := by
                simpa [allIdentity, hov, hh] using htrue
              exact (hiff.mp this) b hbm
          · intro hall
            have : allIdentity conv mapping kw rest = .ok true :=
              hiff.mpr fun b hbm => hall b (by simp [hbm])
            simp [allIdentity, hov, hh, this]
      · refine ⟨⟨false, ?_⟩, ?_⟩
        · simp [allIdentity, hov, hh, hid]
        · constructor
          · intro htrue
            have : (false : Bool) = true := by
              have := htrue
              simp [allIdentity, hov, hh, hid] at this
            exact absurd this (by simp)
          · intro hall
            exact absurd ((hall a (by simp)).2) (by rw [hh]; intro he; exact hid (Except.ok.inj he))
    · refine ⟨⟨false, by simp [allIdentity, hov]⟩, ?_⟩
      constructor
      · intro htrue
        simp [allIdentity, hov] at htrue
      · intro hall
        exact absurd ((hall a (by simp)).1) hov

theorem uPlanFields_ok (conv : Converter) (mapping : TVMap) (kw : Overrides)
    (req : List String) (fs : List FieldA)
    (hres : ∀ a ∈ fs, ∃ h, resolveFieldU conv mapping a.type = .ok h) :
    ∃ stmts, uPlanFields conv mapping kw req fs = .ok stmts := by
  induction fs with
  | nil => exact ⟨[], rfl⟩
  | cons a rest ih =>
    obtain ⟨stmts, hstmts⟩ := ih (fun b hb => hres b (by simp [hb]))
    obtain ⟨h, hh⟩ := hres a (by simp)
    by_cases ho : (kwGet kw a.name).«omit»
    · exact ⟨stmts, by simp [uPlanFields, ho, hstmts]⟩
    · cases hu : (kwGet kw a.name).unstruct_hook with
      | some hk =>
        by_cases hid : hk = .identity
        · exact ⟨stmts, by simp [uPlanFields, ho, hu, hid, hstmts]⟩
        · refine ⟨UStmt.assign (!req.contains a.name) .res
            ((kwGet kw a.name).rename.getD a.name) hk a.name :: stmts, ?_⟩
          simp [uPlanFields, ho, hu, hid, hstmts]
      | none =>
        by_cases hid : h = .identity
        · exact ⟨stmts, by simp [uPlanFields, ho, hu, hh, hid, hstmts]⟩
        · refine ⟨UStmt.assign (!req.contains a.name) .res
            ((kwGet kw a.name).rename.getD a.name) h a.name :: stmts, ?_⟩
          simp [uPlanFields, ho, hu, hh, hid, hstmts]

theorem uPlanFields_tgt (conv : Converter) (mapping : TVMap) (kw : Overrides)
    (req : List String) (fs : List FieldA) (stmts : List UStmt)
    (hp : uPlanFields conv mapping kw req fs = .ok stmts) :
    ∀ st ∈ stmts, st.tgt = UVar.res := by
  induction fs generalizing stmts with
  | nil =>
    simp only [uPlanFields] at hp
    cases hp
    simp
  | cons a rest ih =>
    simp only [uPlanFields] at hp
    split at hp
    · exact ih stmts hp
    · split at hp
      · exact absurd hp (by simp)
      · rename_i h heq
        split at hp
        · exact ih stmts hp
        · split at hp
          · exact absurd hp (by simp)
          · rename_i tail htail
            cases hp
            intro st hst
            rcases List.mem_cons.mp hst with rfl | hmem
            · rfl
            · exact ih tail htail st hmem

theorem runUStmts_inst (conv : Converter) (stmts : List UStmt)
    (htgt : ∀ st ∈ stmts, st.tgt = UVar.res) :
    ∀ s s', runUStmts conv stmts s = .ok s' → s'.inst = s.inst := by
  induction stmts with
  | nil => intro s s' h; cases h; rfl
  | cons st rest ih =>
    intro s s' h
    obtain ⟨g, tgt, kn, hh, an⟩ := st
    have htres := htgt (UStmt.assign g tgt kn hh an) (List.mem_cons_self _ _)
    simp only [UStmt.tgt] at htres
    subst htres
    have htgt' : ∀ st ∈ rest, st.tgt = UVar.res := fun st hst =>
      htgt st (List.mem_cons_of_mem _ hst)
    cases hrun : runUStmt conv s (UStmt.assign g UVar.res kn hh an) with
    | error e =>
      rw [runUStmts, hrun] at h
      exact absurd h (by simp)
    | ok s1 =>
      simp only [runUStmts, hrun] at h
      have h1 : s1.inst = s.inst := by
        simp only [runUStmt] at hrun
        by_cases hg : (g && !dmem s.inst kn) = true
        · rw [if_pos hg] at hrun; cases hrun; rfl
        · rw [if_neg hg] at hrun
          cases hl : dlookup s.inst an with
          | none => rw [hl] at hrun; cases hrun
          | some v => rw [hl] at hrun; cases hrun; simp [writeVar]
      rw [← h1]
      exact ih htgt' s1 s' h

/-- Characterization of generating and running the unstructure body with no
overrides: generation succeeds, the input argument is left untouched, keys
that are not field names keep their res value, and each field's key is
rewritten by its resolved handler exactly when the handler is not the
identity and the key is present in the input. -/
theorem runU_char (conv : Converter) (mapping : TVMap) (req : List String)
    (fs : List FieldA) (d : Dict)
    (hres : ∀ a ∈ fs, ∃ h, resolveFieldU conv mapping a.type = .ok h)
    (hreq : ∀ a ∈ fs, req.contains a.name = true → dmem d a.name = true)
    (hnodup : (fs.map FieldA.name).Nodup) :
    ∀ r : Dict, ∃ stmts r',
      uPlanFields conv mapping [] req fs = .ok stmts ∧
      runUStmts conv stmts ⟨d, r⟩ = .ok ⟨d, r'⟩ ∧
      (∀ k, (∀ a ∈ fs, a.name ≠ k) → dlookup r' k = dlookup r k) ∧
      (∀ a ∈ fs, ∀ h, resolveFieldU conv mapping a.type = .ok h →
        (dlookup d a.name = none → dlookup r' a.name = dlookup r a.name) ∧
        (∀ v, dlookup d a.name = some v →
          dlookup r' a.name = if h = .identity then dlookup r a.name
            else some (uApply conv h v))) := by
  induction fs with
  | nil =>
    intro r
    exact ⟨[], r, rfl, rfl, fun _ _ => rfl, by simp⟩
  | cons a rest ih =>
    intro r
    obtain ⟨h, hh⟩ := hres a (List.mem_cons_self _ _)
    have hres' : ∀ b ∈ rest, ∃ h, resolveFieldU conv mapping b.type = .ok h :=
      fun b hb => hres b (List.mem_cons_of_mem _ hb)
    have hreq' : ∀ b ∈ rest, req.contains b.name = true → dmem d b.name = true :=
      fun b hb => hreq b (List.mem_cons_of_mem _ hb)
    rw [List.map_cons] at hnodup
    have hnotin : a.name ∉ rest.map FieldA.name := (List.nodup_cons.mp hnodup).1
    have hnodup' : (rest.map FieldA.name).Nodup := (List.nodup_cons.mp hnodup).2
    by_cases hid : h = .identity
    · obtain ⟨stmts, r', hplan', hrun', hother', hfield'⟩ := ih hres' hreq' hnodup' r
      refine ⟨stmts, r', ?_, hrun', ?_, ?_⟩
      · simp [uPlanFields, hh, hid, hplan']
      · exact fun k hk => hother' k (fun b hb => hk b (List.mem_cons_of_mem _ hb))
      · intro b hb h' hh'
        rcases List.mem_cons.mp hb with rfl | hb'
        · have he : h = h' := Except.ok.inj (hh.symm.trans hh')
          subst he
          have hkeep : dlookup r' b.name = dlookup r b.name :=
            hother' b.name fun c hc hceq =>
              hnotin (hceq ▸ List.mem_map_of_mem FieldA.name hc)
          exact ⟨fun _ => hkeep, fun v _ => by simp [hid, hkeep]⟩
        · exact hfield' b hb' h' hh'
    · cases hd : dlookup d a.name with
      | some v =>
        have hdm : dmem d a.name = true := by simp [dmem, hd]
        obtain ⟨stmts, r', hplan', hrun', hother', hfield'⟩ :=
          ih hres' hreq' hnodup' (dset r a.name (uApply conv h v))
        have hstep : runUStmt conv ⟨d, r⟩
            (UStmt.assign (!req.contains a.name) .res a.name h a.name)
            = .ok ⟨d, dset r a.name (uApply conv h v)⟩ := by
          simp [runUStmt, hdm, hd, readVar, writeVar]
        refine ⟨UStmt.assign (!req.contains a.name) .res a.name h a.name :: stmts,
          r', ?_, ?_, ?_, ?_⟩
        · simp [uPlanFields, hh, hid, hplan']
        · simp only [runUStmts, hstep]
          exact hrun'
        · intro k hk
          have hka : a.name ≠ k := hk a (List.mem_cons_self _ _)
          rw [hother' k (fun b hb => hk b (List.mem_cons_of_mem _ hb))]
          exact dlookup_dset_ne r _ (fun e => hka e.symm)
        · intro b hb h' hh'
          rcases List.mem_cons.mp hb with rfl | hb'
          · have he : h = h' := Except.ok.inj (hh.symm.trans hh')
            subst he
            have hr1 : dlookup r' b.name
                = dlookup (dset r b.name (uApply conv h v)) b.name :=
              hother' b.name fun c hc hceq =>
                hnotin (hceq ▸ List.mem_map_of_mem FieldA.name hc)
            refine ⟨fun hn => absurd (hd.symm.trans hn) (by simp), fun v' hv' => ?_⟩
            have hvv : v = v' := Option.some.inj (hd.symm.trans hv')
            subst hvv
            rw [hr1, dlookup_dset_self, if_neg hid]
          · have hbn : b.name ≠ a.name := fun e =>
              hnotin (e ▸ List.mem_map_of_mem FieldA.name hb')
            obtain ⟨hnone, hsome⟩ := hfield' b hb' h' hh'
            refine ⟨?_, ?_⟩
            · intro hn
              rw [hnone hn]
              exact dlookup_dset_ne r _ hbn
            · intro v' hv'
              rw [hsome v' hv']
              by_cases h'id : h' = .identity
              · rw [if_pos h'id, if_pos h'id]
                exact dlookup_dset_ne r _ hbn
              · rw [if_neg h'id, if_neg h'id]
      | none =>
        have hcont : req.contains a.name = false := by
          cases hcb : req.contains a.name
          · rfl
          · exact absurd (hreq a (List.mem_cons_self _ _) hcb) (by simp [dmem, hd])
        obtain ⟨stmts, r', hplan', hrun', hother', hfield'⟩ := ih hres' hreq' hnodup' r
        have hstep : runUStmt conv ⟨d, r⟩
            (UStmt.assign (!req.contains a.name) .res a.name h a.name)
            = .ok ⟨d, r⟩ := by
          simp [runUStmt, hcont, dmem, hd]
          simpa using hcont
        refine ⟨UStmt.assign (!req.contains a.name) .res a.name h a.name :: stmts,
          r', ?_, ?_, ?_, ?_⟩
        · simp [uPlanFields, hh, hid, hplan']
        · simp only [runUStmts, hstep]
          exact hrun'
        · exact fun k hk => hother' k (fun b hb => hk b (List.mem_cons_of_mem _ hb))
        · intro b hb h' hh'
          rcases List.mem_cons.mp hb with rfl | hb'
          · have hkeep : dlookup r' b.name = dlookup r b.name :=
              hother' b.name fun c hc hceq =>
                hnotin (hceq ▸ List.mem_map_of_mem FieldA.name hc)
            exact ⟨fun _ => hkeep,
              fun v' hv' => absurd (hd.symm.trans hv') (by simp)⟩
          · exact hfield' b hb' h' hh'

/-- Characterization of generating and running the detailed-validation
structure body with no overrides, when every executed conversion succeeds:
generation succeeds, no error is collected, keys that are not field names
keep their res value, and each field whose key is present in the input is
rewritten with its handler's result. -/
theorem runDetailed_char (conv : Converter) (mapping : TVMap) (cl : RecordCl)
    (fs : List FieldA) (o : Dict)
    (hfind : ∀ a ∈ fs, ∃ h,
      conv.findHandler a.name (resolveTyS conv mapping a.type) = .ok h)
    (hok : ∀ a ∈ fs, ∀ h,
      conv.findHandler a.name (resolveTyS conv mapping a.type) = .ok h →
      (cl.reqKeys.contains a.name = true → dmem o a.name = true) ∧
      (∀ w, dlookup o a.name = some w →
        ∃ u, sApply conv h (resolveTyS conv mapping a.type) w = .ok u))
    (hnodup : (fs.map FieldA.name).Nodup) :
    ∀ res errs, ∃ stmts res',
      sPlanDetailed conv mapping [] cl fs = .ok stmts ∧
      runDetailed conv o stmts res errs = (res', errs) ∧
      (∀ k, (∀ a ∈ fs, a.name ≠ k) → dlookup res' k = dlookup res k) ∧
      (∀ a ∈ fs, ∀ h,
        conv.findHandler a.name (resolveTyS conv mapping a.type) = .ok h →
        (dlookup o a.name = none → dlookup res' a.name = dlookup res a.name) ∧
        (∀ w u, dlookup o a.name = some w →
          sApply conv h (resolveTyS conv mapping a.type) w = .ok u →
          dlookup res' a.name = some u)) := by
  induction fs with
  | nil =>
    intro res errs
    exact ⟨[], res, rfl, rfl, fun _ _ => rfl, by simp⟩
  | cons a rest ih =>
    intro res errs
    obtain ⟨h, hh⟩ := hfind a (List.mem_cons_self _ _)
    have hfind' : ∀ b ∈ rest, ∃ h,
        conv.findHandler b.name (resolveTyS conv mapping b.type) = .ok h :=
      fun b hb => hfind b (List.mem_cons_of_mem _ hb)
    have hok' : ∀ b ∈ rest, ∀ h,
        conv.findHandler b.name (resolveTyS conv mapping b.type) = .ok h →
        (cl.reqKeys.contains b.name = true → dmem o b.name = true) ∧
        (∀ w, dlookup o b.name = some w →
          ∃ u, sApply conv h (resolveTyS conv mapping b.type) w = .ok u) :=
      fun b hb => hok b (List.mem_cons_of_mem _ hb)
    rw [List.map_cons] at hnodup
    have hnotin : a.name ∉ rest.map FieldA.name := (List.nodup_cons.mp hnodup).1
    have hnodup' : (rest.map FieldA.name).Nodup := (List.nodup_cons.mp hnodup).2
    cases ho : dlookup o a.name with
    | some w =>
      have hdm : dmem o a.name = true := by simp [dmem, ho]
      obtain ⟨u, hu⟩ := ((hok a (List.mem_cons_self _ _) h hh).2) w ho
      obtain ⟨stmts, res', hplan', hrun', hother', hfield'⟩ :=
        ih hfind' hok' hnodup' (dset res a.name u) errs
      have hstep : runDetailed conv o
          (SStmt.fieldStmt (!cl.reqKeys.contains a.name) a.name a.name h
            (resolveTyS conv mapping a.type)
            ("Structuring class " ++ cl.qualname ++ " @ attribute " ++ a.name)
            :: stmts) res errs
          = runDetailed conv o stmts (dset res a.name u) errs := by
        simp [runDetailed, hdm, evalRhs, ho, hu]
      refine ⟨SStmt.fieldStmt (!cl.reqKeys.contains a.name) a.name a.name h
          (resolveTyS conv mapping a.type)
          ("Structuring class " ++ cl.qualname ++ " @ attribute " ++ a.name)
          :: stmts, res', ?_, ?_, ?_, ?_⟩
      · simp [sPlanDetailed, hh, hplan']
      · rw [hstep]
        exact hrun'
      · intro k hk
        have hka : a.name ≠ k := hk a (List.mem_cons_self _ _)
        rw [hother' k (fun b hb => hk b (List.mem_cons_of_mem _ hb))]
        exact dlookup_dset_ne res _ (fun e => hka e.symm)
      · intro b hb h' hh'
        rcases List.mem_cons.mp hb with rfl | hb'
        · have he : h = h' := Except.ok.inj (hh.symm.trans hh')
          subst he
          have hr1 : dlookup res' b.name
              = dlookup (dset res b.name u) b.name :=
            hother' b.name fun c hc hceq =>
              hnotin (hceq ▸ List.mem_map_of_mem FieldA.name hc)
          refine ⟨fun hn => absurd (ho.symm.trans hn) (by simp), ?_⟩
          intro w' u' hw' hu'
          have hww : w = w' := Option.some.inj (ho.symm.trans hw')
          subst hww
          have huu : u = u' := Except.ok.inj (hu.symm.trans hu')
          subst huu
          rw [hr1, dlookup_dset_self]
        · have hbn : b.name ≠ a.name := fun e =>
            hnotin (e ▸ List.mem_map_of_mem FieldA.name hb')
          obtain ⟨hnone, hsome⟩ := hfield' b hb' h' hh'
          refine ⟨?_, fun w' u' hw' hu' => hsome w' u' hw' hu'⟩
          intro hn
          rw [hnone hn]
          exact dlookup_dset_ne res _ hbn
    | none =>
      have hcont : cl.reqKeys.contains a.name = false := by
        cases hcb : cl.reqKeys.contains a.name
        · rfl
        · exact absurd ((hok a (List.mem_cons_self _ _) h hh).1 hcb)
            (by simp [dmem, ho])
      obtain ⟨stmts, res', hplan', hrun', hother', hfield'⟩ :=
        ih hfind' hok' hnodup' res errs
      have hstep : runDetailed conv o
          (SStmt.fieldStmt (!cl.reqKeys.contains a.name) a.name a.name h
            (resolveTyS conv mapping a.type)
            ("Structuring class " ++ cl.qualname ++ " @ attribute " ++ a.name)
            :: stmts) res errs
          = runDetailed conv o stmts res errs := by
        simp [runDetailed, dmem, ho, hcont]
        intro hmem
        exact absurd hmem (by simpa using hcont)
      refine ⟨SStmt.fieldStmt (!cl.reqKeys.contains a.name) a.name a.name h
          (resolveTyS conv mapping a.type)
          ("Structuring class " ++ cl.qualname ++ " @ attribute " ++ a.name)
          :: stmts, res', ?_, ?_, ?_, ?_⟩
      · simp [sPlanDetailed, hh, hplan']
      · rw [hstep]
        exact hrun'
      · exact fun k hk => hother' k (fun b hb => hk b (List.mem_cons_of_mem _ hb))
      · intro b hb h' hh'
        rcases List.mem_cons.mp hb with rfl | hb'
        · have hkeep : dlookup res' b.name = dlookup res b.name :=
            hother' b.name fun c hc hceq =>
              hnotin (hceq ▸ List.mem_map_of_mem FieldA.name hc)
          exact ⟨fun _ => hkeep,
            fun w' u' hw' _ => absurd (ho.symm.trans hw') (by simp)⟩
        · exact hfield' b hb' h' hh'

theorem contains_true_iff (l : List String) (x : String) :
    l.contains x = true ↔ x ∈ l := by
  simp

/-- Helper for the round-trip: structuring (detailed validation, no
overrides) an unstructured dict o that agrees with the original d in
membership, holds handler-converted values on field keys, and agrees with d
elsewhere, succeeds and returns a dict equal to d. -/
theorem structure_phase (conv : Converter) (cl : RecordCl) (mapping : TVMap)
    (d o : Dict) (sec : Val)
    (hnodup : (cl.fields.map FieldA.name).Nodup)
    (hreq : ∀ k ∈ cl.reqKeys, dmem d k = true)
    (hparams : checkParams mapping cl.params = .ok ())
    (hresU : ∀ a ∈ cl.fields, ∃ h, resolveFieldU conv mapping a.type = .ok h)
    (hfindS : ∀ a ∈ cl.fields, ∃ h,
      conv.findHandler a.name (resolveTyS conv mapping a.type) = .ok h)
    (hinv : ∀ a ∈ cl.fields, ∀ v, dlookup d a.name = some v →
      ∀ hu hs, resolveFieldU conv mapping a.type = .ok hu →
        conv.findHandler a.name (resolveTyS conv mapping a.type) = .ok hs →
        sApply conv hs (resolveTyS conv mapping a.type) (uApply conv hu v) = .ok v)
    (hmemo : ∀ k, dmem o k = dmem d k)
    (hP2 : ∀ a ∈ cl.fields, ∀ v, dlookup d a.name = some v →
      ∀ hu, resolveFieldU conv mapping a.type = .ok hu →
        dlookup o a.name = some (uApply conv hu v))
    (hP3 : ∀ k, (∀ a ∈ cl.fields, a.name ≠ k) → dlookup o k = dlookup d k) :
    ∃ splan r, make_dict_structure_fn conv cl mapping true [] = .ok splan ∧
      callS conv splan o sec = .ok r ∧
      (∀ k, dlookup r k = dlookup d k) ∧ dictEq r d = true := by
  have hok : ∀ a ∈ cl.fields, ∀ h,
      conv.findHandler a.name (resolveTyS conv mapping a.type) = .ok h →
      (cl.reqKeys.contains a.name = true → dmem o a.name = true) ∧
      (∀ w, dlookup o a.name = some w →
        ∃ u, sApply conv h (resolveTyS conv mapping a.type) w = .ok u) := by
    intro a ha h hh
    constructor
    · intro hc
      rw [hmemo]
      exact hreq a.name ((contains_true_iff _ _).mp hc)
    · intro w hw
      have hdm : dmem d a.name = true := by
        rw [← hmemo]; simp [dmem, hw]
      obtain ⟨v, hv⟩ := Option.isSome_iff_exists.mp (by simpa [dmem] using hdm)
      obtain ⟨hu, hhu⟩ := hresU a ha
      have ho2 := hP2 a ha v hv hu hhu
      have hww : w = uApply conv hu v := Option.some.inj (hw.symm.trans ho2)
      subst hww
      exact ⟨v, hinv a ha v hv hu h hhu hh⟩
  obtain ⟨stmts, res', hplan, hrun, hother, hfield⟩ :=
    runDetailed_char conv mapping cl cl.fields o hfindS hok hnodup (dcopy o) []
  have hpt : ∀ k, dlookup res' k = dlookup d k := by
    intro k
    by_cases hk : ∃ a ∈ cl.fields, a.name = k
    · obtain ⟨a, ha, rfl⟩ := hk
      obtain ⟨hs, hhs⟩ := hfindS a ha
      cases hd : dlookup d a.name with
      | some v =>
        obtain ⟨hu, hhu⟩ := hresU a ha
        have ho2 := hP2 a ha v hd hu hhu
        have happ := hinv a ha v hd hu hs hhu hhs
        exact (hfield a ha hs hhs).2 (uApply conv hu v) v ho2 happ
      | none =>
        have hno : dlookup o a.name = none := by
          have := hmemo a.name
          simp [dmem, hd] at this
          simpa [dmem] using this
        rw [(hfield a ha hs hhs).1 hno]
        exact hno
    · push_neg at hk
      have hne : ∀ a ∈ cl.fields, a.name ≠ k := hk
      rw [hother k hne]
      exact hP3 k hne
  refine ⟨.detailedPlan stmts ("While structuring " ++ cl.name) cl.id, res',
    ?_, ?_, hpt, dictEq_of_pointwise hpt⟩
  · simp [make_dict_structure_fn, hparams, hplan]
  · simp [callS, hrun]

/-- C1: for every record type and instance, with no overrides and with every
field's structure handler inverting its unstructure handler on the stored
values (the no-datetime-fields premise), structuring the result of
unstructuring the instance yields a mapping equal to the original; the
unstructured result is the very same object exactly when every field
resolves to the identity handler, and otherwise a distinct fresh mapping. -/
theorem c1_roundtrip (conv : Converter) (cl : RecordCl) (mapping : TVMap)
    (d : Dict) (sec : Val) (ws : List Nat)
    (hws : ws.contains cl.id = false)
    (hnodup : (cl.fields.map FieldA.name).Nodup)
    (hreq : ∀ k ∈ cl.reqKeys, dmem d k = true)
    (hparams : checkParams mapping cl.params = .ok ())
    (hresU : ∀ a ∈ cl.fields, ∃ h, resolveFieldU conv mapping a.type = .ok h)
    (hfindS : ∀ a ∈ cl.fields, ∃ h,
      conv.findHandler a.name (resolveTyS conv mapping a.type) = .ok h)
    (hinv : ∀ a ∈ cl.fields, ∀ v, dlookup d a.name = some v →
      ∀ hu hs, resolveFieldU conv mapping a.type = .ok hu →
        conv.findHandler a.name (resolveTyS conv mapping a.type) = .ok hs →
        sApply conv hs (resolveTyS conv mapping a.type) (uApply conv hu v) = .ok v) :
    ∃ fn splan o same r,
      make_dict_unstructure_fn conv cl mapping [] ws = (.ok fn, ws) ∧
      make_dict_structure_fn conv cl mapping true [] = .ok splan ∧
      callU conv fn d = .ok (o, same) ∧
      callS conv splan o sec = .ok r ∧
      dictEq r d = true ∧
      (same = true ↔
        ∀ a ∈ cl.fields, resolveFieldU conv mapping a.type = .ok .identity) := by
  have herase : (cl.id :: ws).erase cl.id = ws := by simp
  have hwsm : cl.id ∉ ws := by simpa using hws
  obtain ⟨⟨b, hb⟩, hiff⟩ := allIdentity_spec conv mapping [] cl.fields hresU
  have hiff' : allIdentity conv mapping [] cl.fields = .ok true ↔
      ∀ a ∈ cl.fields, resolveFieldU conv mapping a.type = .ok .identity := by
    rw [hiff]
    exact ⟨fun hall a ha => (hall a ha).2, fun hall a ha => ⟨rfl, hall a ha⟩⟩
  have hreqf : ∀ a ∈ cl.fields,
      cl.reqKeys.contains a.name = true → dmem d a.name = true :=
    fun a _ hc => hreq a.name ((contains_true_iff _ _).mp hc)
  have hP3d : ∀ k, (∀ a ∈ cl.fields, a.name ≠ k) → dlookup d k = dlookup d k :=
    fun _ _ => rfl
  cases b with
  | true =>
    have hfn : make_dict_unstructure_fn conv cl mapping [] ws
        = (.ok .identityFn, ws) := by
      simp [make_dict_unstructure_fn, hws, hwsm, hb, herase]
    have hallid := hiff'.mp hb
    have hP2 : ∀ a ∈ cl.fields, ∀ v, dlookup d a.name = some v →
        ∀ hu, resolveFieldU conv mapping a.type = .ok hu →
          dlookup d a.name = some (uApply conv hu v) := by
      intro a ha v hv hu hhu
      have he : hu = .identity := Except.ok.inj (hhu.symm.trans (hallid a ha))
      subst he
      simpa [uApply] using hv
    obtain ⟨splan, r, hsp, hcs, hpt, heqq⟩ :=
      structure_phase conv cl mapping d d sec hnodup hreq hparams hresU hfindS hinv
        (fun _ => rfl) hP2 hP3d
    exact ⟨.identityFn, splan, d, true, r, hfn, hsp, rfl, hcs, heqq,
      ⟨fun _ => hallid, fun _ => rfl⟩⟩
  | false =>
    obtain ⟨stmts, r', hplan, hrun, hother, hfield⟩ :=
      runU_char conv mapping cl.reqKeys cl.fields d hresU hreqf hnodup (dcopy d)
    have hfn : make_dict_unstructure_fn conv cl mapping [] ws
        = (.ok (.synth stmts), ws) := by
      simp [make_dict_unstructure_fn, hws, hwsm, hb, hplan, herase]
    have hcall : callU conv (.synth stmts) d = .ok (r', false) := by
      simp [callU, hrun]
    have hmemo : ∀ k, dmem r' k = dmem d k := by
      intro k
      by_cases hk : ∃ a ∈ cl.fields, a.name = k
      · obtain ⟨a, ha, rfl⟩ := hk
        obtain ⟨hu, hhu⟩ := hresU a ha
        obtain ⟨hnone, hsome⟩ := hfield a ha hu hhu
        cases hd : dlookup d a.name with
        | some v =>
          have hs' := hsome v hd
          by_cases hid : hu = .identity
          · rw [if_pos hid] at hs'
            simp [dmem, hs', dcopy, hd]
          · rw [if_neg hid] at hs'
            simp [dmem, hs', hd]
        | none =>
          have hn' := hnone hd
          simp [dmem, hn', dcopy, hd]
      · push_neg at hk
        rw [dmem, hother k hk]
        rfl
    have hP2 : ∀ a ∈ cl.fields, ∀ v, dlookup d a.name = some v →
        ∀ hu, resolveFieldU conv mapping a.type = .ok hu →
          dlookup r' a.name = some (uApply conv hu v) := by
      intro a ha v hv hu hhu
      have hs' := (hfield a ha hu hhu).2 v hv
      by_cases hid : hu = .identity
      · rw [if_pos hid] at hs'
        subst hid
        rw [hs']
        simpa [uApply, dcopy] using hv
      · rw [if_neg hid] at hs'
        exact hs'
    have hP3 : ∀ k, (∀ a ∈ cl.fields, a.name ≠ k) →
        dlookup r' k = dlookup d k := fun k hk => hother k hk
    obtain ⟨splan, r, hsp, hcs, hpt, heqq⟩ :=
      structure_phase conv cl mapping d r' sec hnodup hreq hparams hresU hfindS hinv
        hmemo hP2 hP3
    refine ⟨.synth stmts, splan, r', false, r, hfn, hsp, hcall, hcs, heqq, ?_⟩
    constructor
    · intro h
      exact absurd h (by simp)
    · intro hall
      exact Except.ok.inj (hb.symm.trans (hiff'.mpr hall))

/-- A concrete converter for the closed witnesses and counterexamples:
type con 0 dispatches to the identity handler, con 1 to the custom
unstructure handler 7 (which boxes an int); the structure side finds the
matching decoder handler 9 for every field. -/
def demoConv : Converter where
  udispatch := fun t =>
    match t with
    | .con 1 => .ok (.custom 7)
    | _ => .ok .identity
  ucustom := fun _ v =>
    match v with
    | .vint n => .vobj n.toNat
    | v => v
  ufallback := fun v => v
  deepCopy := fun _ t => t
  findHandler := fun _ _ => .ok (.custom 9)
  sdispatch := fun _ => .custom 9
  scustom := fun _ v _ =>
    match v with
    | .vobj n => .ok (.vint (Int.ofNat n))
    | v => .ok v
  scallType := fun _ v => .ok v

/-- A concrete two-field record type: required field a of identity-handled
type con 0, optional field b of custom-handled type con 1. -/
def demoCl : RecordCl where
  id := 42
  name := "Demo"
  qualname := "Demo"
  fields := [⟨"a", .con 0⟩, ⟨"b", .con 1⟩]
  reqKeys := ["a"]
  params := []

/-- A concrete instance of demoCl. -/
def demoInst : Dict := [("a", .vint 1), ("b", .vint 2)]

/-- Witness for c1_roundtrip: the round-trip theorem applied at the concrete
demo record, converter and instance, with every hypothesis discharged by
computation. -/
theorem c1_roundtrip_witness :
    ∃ fn splan o same r,
      make_dict_unstructure_fn demoConv demoCl [] [] [] = (.ok fn, []) ∧
      make_dict_structure_fn demoConv demoCl [] true [] = .ok splan ∧
      callU demoConv fn demoInst = .ok (o, same) ∧
      callS demoConv splan o (.vint 0) = .ok r ∧
      dictEq r demoInst = true ∧
      (same = true ↔ ∀ a ∈ demoCl.fields,
        resolveFieldU demoConv [] a.type = .ok .identity) :=
  c1_roundtrip demoConv demoCl [] demoInst (.vint 0) []
    rfl
    (by simp [demoCl])
    (by decide)
    rfl
    (by
      intro a ha
      simp [demoCl] at ha
      rcases ha with rfl | rfl
      · exact ⟨.identity, rfl⟩
      · exact ⟨.custom 7, rfl⟩)
    (by
      intro a ha
      exact ⟨.custom 9, rfl⟩)
    (by
      intro a ha v hv hu hs hhu hhs
      simp [demoCl] at ha
      rcases ha with rfl | rfl
      · simp [demoInst, dlookup] at hv
        subst hv
        simp [resolveFieldU, dispatchCaught, demoConv] at hhu
        simp [resolveTyS, demoConv] at hhs
        subst hhu
        subst hhs
        rfl
      · simp [demoInst, dlookup] at hv
        subst hv
        simp [resolveFieldU, dispatchCaught, demoConv] at hhu
        simp [resolveTyS, demoConv] at hhs
        subst hhu
        subst hhs
        rfl)

/-- An error of the short-circuit scan always stems from a field's dispatch. -/
theorem allIdentity_err (conv : Converter) (mapping : TVMap) (kw : Overrides)
    (fs : List FieldA) (e : GenErr)
    (h : allIdentity conv mapping kw fs = .error e) :
    ∃ a ∈ fs, resolveFieldU conv mapping a.type = .error e := by
  induction fs with
  | nil => simp [allIdentity] at h
  | cons a rest ih =>
    simp only [allIdentity] at h
    split at h
    · simp at h
    · cases hr : resolveFieldU conv mapping a.type with
      | error e' =>
        rw [hr] at h
        injection h with he
        subst he
        exact ⟨a, List.mem_cons_self _ _, hr⟩
      | ok hh =>
        rw [hr] at h
        dsimp only at h
        by_cases hid : hh = .identity
        · rw [if_pos hid] at h
          obtain ⟨b, hb, hbe⟩ := ih h
          exact ⟨b, List.mem_cons_of_mem _ hb, hbe⟩
        · rw [if_neg hid] at h
          simp at h

/-- An error of the unstructure emission loop always stems from a field's
dispatch (forced hooks and omitted fields cannot fail). -/
theorem uPlanFields_err (conv : Converter) (mapping : TVMap) (kw : Overrides)
    (req : List String) (fs : List FieldA) (e : GenErr)
    (h : uPlanFields conv mapping kw req fs = .error e) :
    ∃ a ∈ fs, resolveFieldU conv mapping a.type = .error e := by
  induction fs with
  | nil => simp [uPlanFields] at h
  | cons a rest ih =>
    simp only [uPlanFields] at h
    split at h
    · obtain ⟨b, hb, hbe⟩ := ih h
      exact ⟨b, List.mem_cons_of_mem _ hb, hbe⟩
    · cases hu : (kwGet kw a.name).unstruct_hook with
      | some hk =>
        rw [hu] at h
        dsimp only at h
        by_cases hid : hk = .identity
        · rw [if_pos hid] at h
          obtain ⟨b, hb, hbe⟩ := ih h
          exact ⟨b, List.mem_cons_of_mem _ hb, hbe⟩
        · rw [if_neg hid] at h
          cases ht : uPlanFields conv mapping kw req rest with
          | error e' =>
            rw [ht] at h
            dsimp only at h
            injection h with he
            subst he
            obtain ⟨b, hb, hbe⟩ := ih ht
            exact ⟨b, List.mem_cons_of_mem _ hb, hbe⟩
          | ok tail => rw [ht] at h; simp at h
      | none =>
        rw [hu] at h
        dsimp only at h
        cases hr : resolveFieldU conv mapping a.type with
        | error e' =>
          rw [hr] at h
          dsimp only at h
          injection h with he
          subst he
          exact ⟨a, List.mem_cons_self _ _, hr⟩
        | ok hh =>
          rw [hr] at h
          dsimp only at h
          by_cases hid : hh = .identity
          · rw [if_pos hid] at h
            obtain ⟨b, hb, hbe⟩ := ih h
            exact ⟨b, List.mem_cons_of_mem _ hb, hbe⟩
          · rw [if_neg hid] at h
            cases ht : uPlanFields conv mapping kw req rest with
            | error e' =>
              rw [ht] at h
              injection h with he
              subst he
              obtain ⟨b, hb, hbe⟩ := ih ht
              exact ⟨b, List.mem_cons_of_mem _ hb, hbe⟩
            | ok tail => rw [ht] at h; simp at h

/-- C6: make_dict_unstructure_fn returns the registry's identity handler
itself exactly when no field has a non-neutral override and every field
resolves to the identity handler; in every other case (some override or
some non-identity handler) a synthesized function is returned instead. -/
theorem c6_identity_shortcircuit (conv : Converter) (cl : RecordCl)
    (mapping : TVMap) (kw : Overrides) (ws : List Nat)
    (hws : ws.contains cl.id = false)
    (hres : ∀ a ∈ cl.fields, ∃ h, resolveFieldU conv mapping a.type = .ok h) :
    ((make_dict_unstructure_fn conv cl mapping kw ws).1 = .ok .identityFn ↔
      ∀ a ∈ cl.fields, kwGet kw a.name = neutral ∧
        resolveFieldU conv mapping a.type = .ok .identity) ∧
    ((¬ ∀ a ∈ cl.fields, kwGet kw a.name = neutral ∧
        resolveFieldU conv mapping a.type = .ok .identity) →
      ∃ stmts, (make_dict_unstructure_fn conv cl mapping kw ws).1
        = .ok (.synth stmts)) := by
  have hwsm : cl.id ∉ ws := by simpa using hws
  obtain ⟨⟨b, hb⟩, hiff⟩ := allIdentity_spec conv mapping kw cl.fields hres
  obtain ⟨stmts, hstmts⟩ := uPlanFields_ok conv mapping kw cl.reqKeys cl.fields hres
  cases b with
  | true =>
    have hfn : (make_dict_unstructure_fn conv cl mapping kw ws).1
        = .ok .identityFn := by
      simp [make_dict_unstructure_fn, hws, hwsm, hb]
    refine ⟨?_, fun hnot => absurd (hiff.mp hb) hnot⟩
    rw [hfn]
    exact ⟨fun _ => hiff.mp hb, fun _ => rfl⟩
  | false =>
    have hfn : (make_dict_unstructure_fn conv cl mapping kw ws).1
        = .ok (.synth stmts) := by
      simp [make_dict_unstructure_fn, hws, hwsm, hb, hstmts]
    refine ⟨?_, fun _ => ⟨stmts, hfn⟩⟩
    rw [hfn]
    constructor
    · intro h
      exact absurd (Except.ok.inj h) (by simp)
    · intro hall
      exact absurd (Except.ok.inj (hb.symm.trans (hiff.mpr hall))) (by simp)

/-- Witness for c6_identity_shortcircuit at the demo record (whose second
field is non-identity): the short-circuit does not fire and a synthesized
function is returned. -/
theorem c6_identity_shortcircuit_witness :
    ((make_dict_unstructure_fn demoConv demoCl [] [] []).1 = .ok .identityFn ↔
      ∀ a ∈ demoCl.fields, kwGet [] a.name = neutral ∧
        resolveFieldU demoConv [] a.type = .ok .identity) ∧
    ((¬ ∀ a ∈ demoCl.fields, kwGet [] a.name = neutral ∧
        resolveFieldU demoConv [] a.type = .ok .identity) →
      ∃ stmts, (make_dict_unstructure_fn demoConv demoCl [] [] []).1
        = .ok (.synth stmts)) :=
  c6_identity_shortcircuit demoConv demoCl [] [] [] rfl
    (by
      intro a ha
      simp [demoCl] at ha
      rcases ha with rfl | rfl
      · exact ⟨.identity, rfl⟩
      · exact ⟨.custom 7, rfl⟩)

/-- C7 counterexample: for an all-identity record with no overrides, the
returned function is the registry's identity handler, and calling it
returns the very same mapping object as the input (the same-object flag is
true), not a distinct new mapping. -/
theorem c7_counterexample :
    make_dict_unstructure_fn demoConv
      ⟨43, "DemoId", "DemoId", [⟨"a", .con 0⟩], ["a"], []⟩ [] [] []
      = (.ok .identityFn, []) ∧
    callU demoConv .identityFn demoInst = .ok (demoInst, true) :=
  ⟨rfl, rfl⟩

/-- C7 amended: a function returned by make_dict_unstructure_fn never
mutates its input argument; when the returned function is synthesized (not
the identity short-circuit) it returns a fresh mapping built from the
initial shallow copy, distinct from the input, while the identity
short-circuit returns the input object itself. -/
theorem c7_no_mutation (conv : Converter) (cl : RecordCl) (mapping : TVMap)
    (kw : Overrides) (ws : List Nat) (stmts : List UStmt) (d : Dict)
    (hmk : (make_dict_unstructure_fn conv cl mapping kw ws).1
      = .ok (.synth stmts)) :
    (∀ s', runUStmts conv stmts ⟨d, dcopy d⟩ = .ok s' → s'.inst = d) ∧
    (∀ o same, callU conv (.synth stmts) d = .ok (o, same) → same = false) ∧
    callU conv .identityFn d = .ok (d, true) := by
  have hstmts : uPlanFields conv mapping kw cl.reqKeys cl.fields = .ok stmts := by
    cases hcont : ws.contains cl.id with
    | true =>
      have hmem : cl.id ∈ ws := by simpa using hcont
      simp [make_dict_unstructure_fn, hmem] at hmk
    | false =>
      have hmem : cl.id ∉ ws := by simpa using hcont
      simp only [make_dict_unstructure_fn, hcont] at hmk
      rw [if_neg (by simpa using hmem)] at hmk
      cases hai : allIdentity conv mapping kw cl.fields with
      | error e => rw [hai] at hmk; simp at hmk
      | ok bb =>
        rw [hai] at hmk
        cases bb with
        | true => simp at hmk
        | false =>
          cases hup : uPlanFields conv mapping kw cl.reqKeys cl.fields with
          | error e => rw [hup] at hmk; simp at hmk
          | ok st' =>
            rw [hup] at hmk
            simp at hmk
            subst hmk
            rfl
  refine ⟨?_, ?_, rfl⟩
  · intro s' hrun
    exact runUStmts_inst conv stmts
      (uPlanFields_tgt conv mapping kw cl.reqKeys cl.fields stmts hstmts) _ s' hrun
  · intro o same hc
    simp only [callU] at hc
    cases hrun : runUStmts conv stmts ⟨d, dcopy d⟩ with
    | error e => rw [hrun] at hc; simp at hc
    | ok s =>
      rw [hrun] at hc
      simp at hc
      exact hc.2

/-- Witness for c7_no_mutation: applied at the demo record, whose generated
body is a single guarded assignment to res for field b. -/
theorem c7_no_mutation_witness :
    (∀ s', runUStmts demoConv [UStmt.assign true .res "b" (.custom 7) "b"]
        ⟨demoInst, dcopy demoInst⟩ = .ok s' → s'.inst = demoInst) ∧
    (∀ o same, callU demoConv
        (.synth [UStmt.assign true .res "b" (.custom 7) "b"]) demoInst
        = .ok (o, same) → same = false) ∧
    callU demoConv .identityFn demoInst = .ok (demoInst, true) :=
  c7_no_mutation demoConv demoCl [] [] []
    [UStmt.assign true .res "b" (.custom 7) "b"] demoInst rfl

/-- The short-circuit scan never raises the RecursionError itself (only the
entry check does; dispatch RecursionErrors are caught and replaced by the
fallback). -/
theorem allIdentity_ne_rec (conv : Converter) (mapping : TVMap) (kw : Overrides)
    (fs : List FieldA) :
    allIdentity conv mapping kw fs ≠ .error .recursionError := by
  intro h
  obtain ⟨a, _, ha⟩ := allIdentity_err conv mapping kw fs .recursionError h
  exact resolveFieldU_ne_rec conv mapping a.type ha

/-- The unstructure emission loop never raises the RecursionError itself. -/
theorem uPlanFields_ne_rec (conv : Converter) (mapping : TVMap) (kw : Overrides)
    (req : List String) (fs : List FieldA) :
    uPlanFields conv mapping kw req fs ≠ .error .recursionError := by
  intro h
  obtain ⟨a, _, ha⟩ := uPlanFields_err conv mapping kw req fs .recursionError h
  exact resolveFieldU_ne_rec conv mapping a.type ha

/-- C8: the working-set discipline of make_dict_unstructure_fn: after every
call (success or failure) the working set equals its pre-call contents; a
class already in the set on entry yields the distinguished RecursionError;
and no other part of generation produces that error. -/
theorem c8_working_set (conv : Converter) (cl : RecordCl) (mapping : TVMap)
    (kw : Overrides) (ws : List Nat) :
    (make_dict_unstructure_fn conv cl mapping kw ws).2 = ws ∧
    (ws.contains cl.id = true →
      (make_dict_unstructure_fn conv cl mapping kw ws).1
        = .error .recursionError) ∧
    (ws.contains cl.id = false →
      (make_dict_unstructure_fn conv cl mapping kw ws).1
        ≠ .error .recursionError) := by
  refine ⟨?_, ?_, ?_⟩
  · cases hcont : ws.contains cl.id with
    | true =>
      have hmem : cl.id ∈ ws := by simpa using hcont
      simp [make_dict_unstructure_fn, hmem]
    | false =>
      have hmem : cl.id ∉ ws := by simpa using hcont
      simp [make_dict_unstructure_fn, hmem]
  · intro hcont
    have hmem : cl.id ∈ ws := by simpa using hcont
    simp [make_dict_unstructure_fn, hmem]
  · intro hcont hbad
    have hmem : cl.id ∉ ws := by simpa using hcont
    simp only [make_dict_unstructure_fn] at hbad
    rw [if_neg (by simpa using hmem)] at hbad
    cases hai : allIdentity conv mapping kw cl.fields with
    | error e =>
      rw [hai] at hbad
      simp at hbad
      exact allIdentity_ne_rec conv mapping kw cl.fields (by rw [hai, hbad])
    | ok bb =>
      rw [hai] at hbad
      cases bb with
      | true => simp at hbad
      | false =>
        cases hup : uPlanFields conv mapping kw cl.reqKeys cl.fields with
        | error e =>
          rw [hup] at hbad
          simp at hbad
          exact uPlanFields_ne_rec conv mapping kw cl.reqKeys cl.fields
            (by rw [hup, hbad])
        | ok st => rw [hup] at hbad; simp at hbad

/-- Witness for c8_working_set: concrete calls with the demo class inside
the working set (recursion error, set untouched) and outside it (set
restored, no recursion error). -/
theorem c8_working_set_witness :
    (make_dict_unstructure_fn demoConv demoCl [] [] [42]).1
        = .error .recursionError ∧
    (make_dict_unstructure_fn demoConv demoCl [] [] [42]).2 = [42] ∧
    (make_dict_unstructure_fn demoConv demoCl [] [] []).2 = [] ∧
    (make_dict_unstructure_fn demoConv demoCl [] [] []).1
        ≠ .error .recursionError :=
  ⟨(c8_working_set demoConv demoCl [] [] [42]).2.1 rfl,
   (c8_working_set demoConv demoCl [] [] [42]).1,
   (c8_working_set demoConv demoCl [] [] []).1,
   (c8_working_set demoConv demoCl [] [] []).2.2 rfl⟩

/-- C2 evaluated at the failing input: with override(omit=True) on field a
and field a present in the instance, the generator emits no line for a but
the body still starts from res = instance.copy(), so the omitted key IS in
the returned mapping with its original value, contradicting the claim that
the output never contains it. -/
theorem c2_omit_key_retained :
    make_dict_unstructure_fn demoConv
        ⟨44, "DemoOmit", "DemoOmit", [⟨"a", .con 0⟩], ["a"], []⟩
        [] [("a", { «omit» := true })] []
      = (.ok (.synth []), []) ∧
    callU demoConv (.synth []) [("a", .vint 1)]
      = .ok ([("a", .vint 1)], false) ∧
    dmem [("a", .vint 1)] "a" = true :=
  ⟨rfl, rfl, rfl⟩

/-- C3 evaluated at the failing inputs.  First record: a rename override on
an identity-resolved field emits nothing at all (the value stays under the
original key, the renamed key never appears).  Second record: even for a
non-identity field the emitted line writes the renamed key but the
original key survives from the shallow copy, so the output contains both.
Third part: the fast-mode structure function for the renamed field writes
the RENAMED key of res, not the field name, so field b is never
populated. -/
theorem c3_rename_broken :
    (make_dict_unstructure_fn demoConv
        ⟨45, "DemoRen", "DemoRen", [⟨"a", .con 0⟩], ["a"], []⟩
        [] [("a", { rename := some "r" })] []
      = (.ok (.synth []), []) ∧
     callU demoConv (.synth []) [("a", .vint 1)]
      = .ok ([("a", .vint 1)], false) ∧
     dmem [("a", .vint 1)] "r" = false ∧
     dmem [("a", .vint 1)] "a" = true) ∧
    (make_dict_unstructure_fn demoConv
        ⟨46, "DemoRen2", "DemoRen2", [⟨"b", .con 1⟩], ["b"], []⟩
        [] [("b", { rename := some "r" })] []
      = (.ok (.synth [UStmt.assign false .res "r" (.custom 7) "b"]), []) ∧
     callU demoConv (.synth [UStmt.assign false .res "r" (.custom 7) "b"])
        [("b", .vint 2)]
      = .ok ([("b", .vint 2), ("r", .vobj 2)], false) ∧
     dmem [("b", .vint 2), ("r", .vobj 2)] "b" = true) ∧
    (make_dict_structure_fn demoConv
        ⟨46, "DemoRen2", "DemoRen2", [⟨"b", .con 1⟩], ["b"], []⟩
        [] false [("b", { rename := some "r" })]
      = .ok (.fastPlan [FStmt.freq "r" (.custom 9) (.con 1)] []) ∧
     callS demoConv (.fastPlan [FStmt.freq "r" (.custom 9) (.con 1)] [])
        [("r", .vobj 2)] (.vint 0)
      = .ok [("r", .vint 2)] ∧
     dmem [("r", .vint 2)] "b" = false) :=
  ⟨⟨rfl, rfl, rfl, rfl⟩, ⟨rfl, rfl, rfl⟩, ⟨rfl, rfl, rfl⟩⟩

/-- C9: for a record whose single optional field has a rename override and a
non-identity resolved handler, the emitted assignment is guarded by the
presence of the renamed key in the input while reading the original key:
with only the original key present the assignment does not execute (the
copy passes through unchanged), and with only the renamed key present the
call raises a KeyError on the original key. -/
theorem c9_rename_guard (conv : Converter) (idn : Nat) (nm qn an r : String)
    (t : Ty) (h : UHandler) (d : Dict)
    (hres : resolveFieldU conv [] t = .ok h)
    (hid : h ≠ .identity) :
    make_dict_unstructure_fn conv ⟨idn, nm, qn, [⟨an, t⟩], [], []⟩ []
        [(an, { rename := some r })] []
      = (.ok (.synth [UStmt.assign true .res r h an]), []) ∧
    (dmem d r = false →
      callU conv (.synth [UStmt.assign true .res r h an]) d
        = .ok (dcopy d, false)) ∧
    (dmem d r = true → dmem d an = false →
      callU conv (.synth [UStmt.assign true .res r h an]) d
        = .error ⟨.keyError an, []⟩) := by
  have hov : kwGet [(an, { rename := some r })] an
      = { rename := some r } := by
    simp [kwGet, alookup]
  have hne : ({ rename := some r } : AttributeOverride) ≠ neutral := by
    simp [neutral, AttributeOverride.mk.injEq]
  refine ⟨?_, ?_, ?_⟩
  · have hall : allIdentity conv [] [(an, { rename := some r })] [⟨an, t⟩]
        = .ok false := by
      simp [allIdentity, hov, hne]
    have hplan : uPlanFields conv [] [(an, { rename := some r })] [] [⟨an, t⟩]
        = .ok [UStmt.assign true .res r h an] := by
      simp [uPlanFields, hov, hres, hid]
    simp [make_dict_unstructure_fn, hall, hplan]
  · intro hr
    simp [callU, runUStmts, runUStmt, hr, dcopy]
  · intro hr han
    have hnone : dlookup d an = none := by
      cases hl : dlookup d an
      · rfl
      · simp [dmem, hl] at han
    simp [callU, runUStmts, runUStmt, hr, hnone]

/-- Witness for c9_rename_guard: the demo non-identity field b renamed to r,
called once with only the original key and once with only the renamed
key. -/
theorem c9_rename_guard_witness :
    make_dict_unstructure_fn demoConv ⟨47, "DemoG", "DemoG", [⟨"b", .con 1⟩], [], []⟩
        [] [("b", { rename := some "r" })] []
      = (.ok (.synth [UStmt.assign true .res "r" (.custom 7) "b"]), []) ∧
    callU demoConv (.synth [UStmt.assign true .res "r" (.custom 7) "b"])
        [("b", .vint 2)] = .ok (dcopy [("b", .vint 2)], false) ∧
    callU demoConv (.synth [UStmt.assign true .res "r" (.custom 7) "b"])
        [("r", .vint 5)] = .error ⟨.keyError "b", []⟩ :=
  ⟨(c9_rename_guard demoConv 47 "DemoG" "DemoG" "b" "r" (.con 1) (.custom 7)
      [("b", .vint 2)] rfl (by simp)).1,
   (c9_rename_guard demoConv 47 "DemoG" "DemoG" "b" "r" (.con 1) (.custom 7)
      [("b", .vint 2)] rfl (by simp)).2.1 rfl,
   (c9_rename_guard demoConv 47 "DemoG" "DemoG" "b" "r" (.con 1) (.custom 7)
      [("r", .vint 5)] rfl (by simp)).2.2 rfl rfl⟩

/-- C10: a function returned by make_dict_structure_fn ignores its second
positional argument (the target type): the generated signature binds it to
the unused placeholder and the body only ever reads o and res, so two
calls differing only in that argument coincide (same result or same
error). -/
theorem c10_second_arg_ignored (conv : Converter) (cl : RecordCl)
    (mapping : TVMap) (det : Bool) (kw : Overrides) (plan : SPlan)
    (hmk : make_dict_structure_fn conv cl mapping det kw = .ok plan) :
    ∀ (o : Dict) (s1 s2 : Val), callS conv plan o s1 = callS conv plan o s2 :=
  fun _ _ _ => rfl

/-- The detailed-validation plan generated for the demo record. -/
def demoSPlan : SPlan :=
  .detailedPlan
    [SStmt.fieldStmt false "a" "a" (.custom 9) (.con 0)
      "Structuring class Demo @ attribute a",
     SStmt.fieldStmt true "b" "b" (.custom 9) (.con 1)
      "Structuring class Demo @ attribute b"]
    "While structuring Demo" 42

/-- Witness for c10_second_arg_ignored at the demo record and two distinct
second arguments. -/
theorem c10_second_arg_ignored_witness :
    callS demoConv demoSPlan demoInst (.vint 0)
      = callS demoConv demoSPlan demoInst (.vint 999) :=
  c10_second_arg_ignored demoConv demoCl [] true [] demoSPlan rfl
    demoInst (.vint 0) (.vint 999)

/-- The class-parameters check fails on the first unbound parameter. -/
theorem checkParams_err (mapping : TVMap) (ps : List String)
    (h : ∃ p ∈ ps, alookup mapping p = none) :
    ∃ q ∈ ps, alookup mapping q = none ∧
      checkParams mapping ps = .error (.missingGenericArg q) := by
  induction ps with
  | nil => simp at h
  | cons p rest ih =>
    cases hl : alookup mapping p with
    | none => exact ⟨p, List.mem_cons_self _ _, hl, by simp [checkParams, hl]⟩
    | some t =>
      obtain ⟨q, hq, hqn⟩ := h
      rcases List.mem_cons.mp hq with rfl | hq'
      · rw [hl] at hqn
        cases hqn
      · obtain ⟨q', hq'', hqn', hce⟩ := ih ⟨q, hq', hqn⟩
        exact ⟨q', List.mem_cons_of_mem _ hq'', hqn',
          by simp [checkParams, hl, hce]⟩

/-- C5 counterexample: for a generic record with unbound class parameter T,
the failure happens in the class-parameters check before any per-field
handling, so supplying an explicit per-field struct_hook override does NOT
allow generation to proceed, refuting that part of the claim. -/
theorem c5_counterexample :
    make_dict_structure_fn demoConv
        ⟨48, "DemoGen", "DemoGen", [⟨"x", .tvar "T"⟩], ["x"], ["T"]⟩
        [] true [("x", { struct_hook := some (.custom 9) })]
      = .error (.missingGenericArg "T") := rfl

/-- C5 amended: when the class has a type-variable parameter with no binding
in the substitution mapping, make_dict_structure_fn fails at generation
time with the handler-not-found error whose message names the (first such)
missing parameter, regardless of any per-field struct_hook overrides;
make_dict_unstructure_fn instead resolves a field whose type is an unbound
TypeVar to the converter's general-purpose unstructure entry point and
does not fail. -/
theorem c5_unbound_generic (conv : Converter) (cl : RecordCl) (mapping : TVMap)
    (det : Bool) (kw : Overrides)
    (hunbound : ∃ p ∈ cl.params, alookup mapping p = none) :
    (∃ q, q ∈ cl.params ∧ alookup mapping q = none ∧
      make_dict_structure_fn conv cl mapping det kw
        = .error (.missingGenericArg q) ∧
      genErrMsg (.missingGenericArg q)
        = "Missing type for generic argument " ++ q
          ++ ", specify it when structuring.") ∧
    (∀ n, alookup mapping n = none →
      resolveFieldU conv mapping (.tvar n) = .ok .fallback) ∧
    (∀ idn nm qn an n, alookup mapping n = none →
      make_dict_unstructure_fn conv ⟨idn, nm, qn, [⟨an, .tvar n⟩], [an], [n]⟩
          mapping [] []
        = (.ok (.synth [UStmt.assign false .res an .fallback an]), [])) := by
  refine ⟨?_, ?_, ?_⟩
  · obtain ⟨q, hq, hqn, hce⟩ := checkParams_err mapping cl.params hunbound
    exact ⟨q, hq, hqn, by simp [make_dict_structure_fn, hce], rfl⟩
  · intro n hn
    simp [resolveFieldU, hn]
  · intro idn nm qn an n hn
    have hres : resolveFieldU conv mapping (.tvar n) = .ok .fallback := by
      simp [resolveFieldU, hn]
    have hall : allIdentity conv mapping [] [⟨an, .tvar n⟩] = .ok false := by
      simp [allIdentity, hres]
    have hplan : uPlanFields conv mapping [] [an] [⟨an, .tvar n⟩]
        = .ok [UStmt.assign false .res an .fallback an] := by
      simp [uPlanFields, hres]
    simp [make_dict_unstructure_fn, hall, hplan]

/-- Witness for c5_unbound_generic at a concrete generic record, with the
pinned parameter name T, including the unaffected unstructure maker. -/
theorem c5_unbound_generic_witness :
    make_dict_structure_fn demoConv
        ⟨48, "DemoGen", "DemoGen", [⟨"x", .tvar "T"⟩], ["x"], ["T"]⟩
        [] true [("x", { struct_hook := some (.custom 9) })]
      = .error (.missingGenericArg "T") ∧
    resolveFieldU demoConv [] (.tvar "T") = .ok .fallback ∧
    make_dict_unstructure_fn demoConv
        ⟨49, "DemoGU", "DemoGU", [⟨"x", .tvar "T"⟩], ["x"], ["T"]⟩ [] [] []
      = (.ok (.synth [UStmt.assign false .res "x" .fallback "x"]), []) := by
  obtain ⟨⟨q, hq, hqn, hmk, hmsg⟩, hres, hmku⟩ :=
    c5_unbound_generic demoConv
      ⟨48, "DemoGen", "DemoGen", [⟨"x", .tvar "T"⟩], ["x"], ["T"]⟩
      [] true [("x", { struct_hook := some (.custom 9) })]
      ⟨"T", by simp, rfl⟩
  have hqe : q = "T" := by simpa using hq
  subst hqe
  exact ⟨hmk, hres "T" rfl, hmku 49 "DemoGU" "DemoGU" "x" "T" rfl⟩

/-- C4: error handling of the generated structure functions, for a record
with fields n1 then n2 in declaration order and an input holding both
keys.  (A) detailed-validation mode with both conversions failing raises
exactly one aggregate error carrying exactly the two underlying errors in
declaration order, each annotated with the note naming its own field;
(B) fast mode (both fields required) with the first conversion failing
raises exactly that exception, with no constraint whatsoever on the second
field's handler, which is never evaluated; (C) detailed mode with both
conversions succeeding raises nothing; (D) fast mode with n1 optional and
n2 required resolves required fields first: a failing n2 is raised even
though n1 is declared first, with no constraint on n1's handler. -/
theorem c4_detailed_validation (conv : Converter) (m : TVMap)
    (clId : Nat) (nm qn n1 n2 : String) (t1 t2 : Ty) (o : Dict)
    (v1 v2 : Val) (sec : Val)
    (hne : n1 ≠ n2)
    (ho1 : dlookup o n1 = some v1)
    (ho2 : dlookup o n2 = some v2) :
    (∀ h1 h2 e1 e2,
      conv.findHandler n1 (resolveTyS conv m t1) = .ok h1 →
      conv.findHandler n2 (resolveTyS conv m t2) = .ok h2 →
      sApply conv h1 (resolveTyS conv m t1) v1 = .error e1 →
      sApply conv h2 (resolveTyS conv m t2) v2 = .error e2 →
      ∃ plan, make_dict_structure_fn conv
          ⟨clId, nm, qn, [⟨n1, t1⟩, ⟨n2, t2⟩], [n1, n2], []⟩ m true []
        = .ok plan ∧
      callS conv plan o sec
        = .error (.classValidation ("While structuring " ++ nm)
            [addNote e1 ("Structuring class " ++ qn ++ " @ attribute " ++ n1),
             addNote e2 ("Structuring class " ++ qn ++ " @ attribute " ++ n2)]
            clId)) ∧
    (∀ f1,
      sApply conv (conv.sdispatch (resolveTyS conv m t1))
        (resolveTyS conv m t1) v1 = .error f1 →
      ∃ plan, make_dict_structure_fn conv
          ⟨clId, nm, qn, [⟨n1, t1⟩, ⟨n2, t2⟩], [n1, n2], []⟩ m false []
        = .ok plan ∧
      callS conv plan o sec = .error (.exc f1)) ∧
    (∀ h1 h2 w1 w2,
      conv.findHandler n1 (resolveTyS conv m t1) = .ok h1 →
      conv.findHandler n2 (resolveTyS conv m t2) = .ok h2 →
      sApply conv h1 (resolveTyS conv m t1) v1 = .ok w1 →
      sApply conv h2 (resolveTyS conv m t2) v2 = .ok w2 →
      ∃ plan r, make_dict_structure_fn conv
          ⟨clId, nm, qn, [⟨n1, t1⟩, ⟨n2, t2⟩], [n1, n2], []⟩ m true []
        = .ok plan ∧
      callS conv plan o sec = .ok r) ∧
    (∀ f2,
      sApply conv (conv.sdispatch (resolveTyS conv m t2))
        (resolveTyS conv m t2) v2 = .error f2 →
      ∃ plan, make_dict_structure_fn conv
          ⟨clId, nm, qn, [⟨n1, t1⟩, ⟨n2, t2⟩], [n2], []⟩ m false []
        = .ok plan ∧
      callS conv plan o sec = .error (.exc f2)) := by
  have hc1 : List.contains [n1, n2] n1 = true := by simp
  have hc2 : List.contains [n1, n2] n2 = true := by simp
  have hc1' : List.contains [n2] n1 = false := by simp [hne]
  have hc2' : List.contains [n2] n2 = true := by simp
  refine ⟨?_, ?_, ?_, ?_⟩
  · intro h1 h2 e1 e2 hf1 hf2 he1 he2
    refine ⟨.detailedPlan
        [SStmt.fieldStmt false n1 n1 h1 (resolveTyS conv m t1)
          ("Structuring class " ++ qn ++ " @ attribute " ++ n1),
         SStmt.fieldStmt false n2 n2 h2 (resolveTyS conv m t2)
          ("Structuring class " ++ qn ++ " @ attribute " ++ n2)]
        ("While structuring " ++ nm) clId, ?_, ?_⟩
    · simp [make_dict_structure_fn, checkParams, sPlanDetailed, hf1, hf2,
        hc1, hc2]
    · simp [callS, runDetailed, evalRhs, ho1, ho2, he1, he2]
  · intro f1 hb1
    refine ⟨.fastPlan
        [FStmt.freq n1 (conv.sdispatch (resolveTyS conv m t1))
          (resolveTyS conv m t1),
         FStmt.freq n2 (conv.sdispatch (resolveTyS conv m t2))
          (resolveTyS conv m t2)] [], ?_, ?_⟩
    · simp [make_dict_structure_fn, checkParams, sPlanFastReq, sPlanFastOpt,
        hc1, hc2]
    · simp [callS, runFast, evalRhs, ho1, hb1]
  · intro h1 h2 w1 w2 hf1 hf2 hw1 hw2
    refine ⟨.detailedPlan
        [SStmt.fieldStmt false n1 n1 h1 (resolveTyS conv m t1)
          ("Structuring class " ++ qn ++ " @ attribute " ++ n1),
         SStmt.fieldStmt false n2 n2 h2 (resolveTyS conv m t2)
          ("Structuring class " ++ qn ++ " @ attribute " ++ n2)]
        ("While structuring " ++ nm) clId,
      dset (dset (dcopy o) n1 w1) n2 w2, ?_, ?_⟩
    · simp [make_dict_structure_fn, checkParams, sPlanDetailed, hf1, hf2,
        hc1, hc2]
    · simp [callS, runDetailed, evalRhs, ho1, ho2, hw1, hw2]
  · intro f2 hb2
    refine ⟨.fastPlan
        [FStmt.freq n2 (conv.sdispatch (resolveTyS conv m t2))
          (resolveTyS conv m t2)]
        [FStmt.fopt n1 n1 (conv.sdispatch (resolveTyS conv m t1))
          (resolveTyS conv m t1)], ?_, ?_⟩
    · simp [make_dict_structure_fn, checkParams, sPlanFastReq, sPlanFastOpt,
        hc1', hc2', hne]
    · simp [callS, runFast, evalRhs, ho2, hb2]

/-- A converter whose structure handlers always fail, for the validation
witness. -/
def demoFail : Converter :=
  { demoConv with
      findHandler := fun _ _ => .ok (.custom 13)
      sdispatch := fun _ => .custom 13
      scustom := fun i _ _ => .error ⟨.other i, []⟩ }

/-- Witness for c4_detailed_validation: a concrete two-field record with a
failing converter for the aggregation, fast-fail and required-first parts,
and the ordinary demo converter for the no-failure part. -/
theorem c4_detailed_validation_witness :
    (∃ plan, make_dict_structure_fn demoFail
        ⟨50, "DemoV", "DemoV", [⟨"x", .con 0⟩, ⟨"y", .con 1⟩], ["x", "y"], []⟩
        [] true [] = .ok plan ∧
      callS demoFail plan [("x", .vint 1), ("y", .vint 2)] (.vint 0)
        = .error (.classValidation "While structuring DemoV"
            [⟨.other 13, ["Structuring class DemoV @ attribute x"]⟩,
             ⟨.other 13, ["Structuring class DemoV @ attribute y"]⟩] 50)) ∧
    (∃ plan, make_dict_structure_fn demoFail
        ⟨50, "DemoV", "DemoV", [⟨"x", .con 0⟩, ⟨"y", .con 1⟩], ["x", "y"], []⟩
        [] false [] = .ok plan ∧
      callS demoFail plan [("x", .vint 1), ("y", .vint 2)] (.vint 0)
        = .error (.exc ⟨.other 13, []⟩)) ∧
    (∃ plan r, make_dict_structure_fn demoConv
        ⟨50, "DemoV", "DemoV", [⟨"x", .con 0⟩, ⟨"y", .con 1⟩], ["x", "y"], []⟩
        [] true [] = .ok plan ∧
      callS demoConv plan [("x", .vint 1), ("y", .vint 2)] (.vint 0) = .ok r) ∧
    (∃ plan, make_dict_structure_fn demoFail
        ⟨50, "DemoV", "DemoV", [⟨"x", .con 0⟩, ⟨"y", .con 1⟩], ["y"], []⟩
        [] false [] = .ok plan ∧
      callS demoFail plan [("x", .vint 1), ("y", .vint 2)] (.vint 0)
        = .error (.exc ⟨.other 13, []⟩)) := by
  obtain ⟨hA, hB, _, hD⟩ :=
    c4_detailed_validation demoFail [] 50 "DemoV" "DemoV" "x" "y"
      (.con 0) (.con 1) [("x", .vint 1), ("y", .vint 2)]
      (.vint 1) (.vint 2) (.vint 0) (by decide) rfl rfl
  obtain ⟨_, _, hC, _⟩ :=
    c4_detailed_validation demoConv [] 50 "DemoV" "DemoV" "x" "y"
      (.con 0) (.con 1) [("x", .vint 1), ("y", .vint 2)]
      (.vint 1) (.vint 2) (.vint 0) (by decide) rfl rfl
  refine ⟨?_, hB ⟨.other 13, []⟩ rfl, hC (.custom 9) (.custom 9)
    (.vint 1) (.vint 2) rfl rfl rfl rfl, hD ⟨.other 13, []⟩ rfl⟩
  obtain ⟨plan, hmk, hcs⟩ :=
    hA (.custom 13) (.custom 13) ⟨.other 13, []⟩ ⟨.other 13, []⟩ rfl rfl rfl rfl
  refine ⟨plan, hmk, ?_⟩
  simpa [addNote] using hcs

end Cattrs
